import Mathlib

/-!
Verification development for the PrismStyle dataset-normalization pipeline.

Shallow embedding of the five core components (archive integrity checker,
tabular repair, detection schema converter, identifier resolution / join
engine, manifest assembly) from:

  tools/ml/index_polyvore_images.py
  tools/ml/augment_polyvore_outfits_with_images.py
  tools/ml/convert_deepfashion2_to_coco.py
  tools/deepfashion2/check_deepfashion2_zips.py
  tools/ml/ingest_deep_fashion.py
  tools/ml/ingest_polyvore.py

Python strings are modelled as `List Char`; Python `float` arithmetic on the
small dyadic rationals appearing in annotation boxes is exact, so boxes are
modelled with `ℚ`.  Filesystem and archive access are inputs to the model
(directory listings, per-file existence flags, decryption outcomes).
-/

namespace PrismStyle

/-- Coerce a Lean string literal to the `List Char` representation used
throughout the model. -/
def s2l (s : String) : List Char := s.data

/-- Python `needle in hay` substring test on strings. -/
def isSubstr (needle : List Char) : List Char → Bool
  | [] => needle.isEmpty
  | c :: rest => needle.isPrefixOf (c :: rest) || isSubstr needle rest

/-- Python `str.endswith` / the effect of a `*.jpg` glob on a file name. -/
def endsWith (suffix name : List Char) : Bool := suffix.isSuffixOf name

/-- Python `str.replace(pat, rep)`: replace all non-overlapping occurrences,
leftmost first.  Only called with non-empty `pat` in the source. -/
def replaceAll (pat rep : List Char) : List Char → List Char
  | [] => []
  | c :: rest =>
    if h : pat ≠ [] ∧ pat.isPrefixOf (c :: rest) then
      rep ++ replaceAll pat rep ((c :: rest).drop pat.length)
    else
      c :: replaceAll pat rep rest
termination_by s => s.length
decreasing_by
  · have hp : 0 < pat.length := List.length_pos.mpr h.1
    simp only [List.length_drop, List.length_cons]
    omega
  · simp

/-- `pathlib.PurePath.stem`: drop the last extension.  The last `'.'` counts
as an extension separator only if it is neither the first nor the last
character of the name. -/
def pyStem (name : List Char) : List Char :=
  match (name.reverse.findIdx? (· = '.')).map (fun j => name.length - 1 - j) with
  | some i => if 0 < i ∧ i + 1 < name.length then name.take i else name
  | none => name

end PrismStyle

namespace PrismStyle

/-! ### Identifier Resolution & Join Engine
`tools/ml/index_polyvore_images.py` and
`tools/ml/augment_polyvore_outfits_with_images.py`. -/

/-- The fixed ItemUID composition rule shared by
`index_polyvore_images.py` (line 55) and `ingest_polyvore.py` (line 91):
`f"polyvore:{set_id}_{idx}"`. -/
def itemUid (setId idx : List Char) : List Char :=
  s2l "polyvore:" ++ setId ++ '_' :: idx

/-- One directory entry of the `<images_root>/images` folder as seen by
`base.iterdir()`: a name, whether it is a directory, and (for directories)
the contained file names. -/
structure BaseEntry where
  name : List Char
  isDir : Bool
  files : List (List Char)
deriving DecidableEq

/-- One line of the image-index manifest written by
`index_polyvore_images.py` (lines 56-68). -/
structure IndexEntry where
  item_uid : List Char
  set_id : List Char
  index : List Char
  image_relpath : List Char
  present : Bool          -- the JSON field "exists", always true when emitted
deriving DecidableEq

/-- Sort a list of strings ascending (Python `sorted` on names; `sorted` is a
stable mergesort and string comparison is lexicographic by code point). -/
def sortStrings (l : List (List Char)) : List (List Char) :=
  l.mergeSort (fun a b => decide (a ≤ b))

/-- Sort base entries by name (Python `sorted` over `Path` objects with a
common parent orders by final component). -/
def sortEntries (l : List BaseEntry) : List BaseEntry :=
  l.mergeSort (fun a b => decide (a.name ≤ b.name))

/-- `index_polyvore_images.py` main loop (lines 50-69): for each
subdirectory of `images/` in sorted order, for each `*.jpg` file in sorted
order, emit one index entry; `image_relpath` is the path relative to the
images root, i.e. `images/<set_id>/<file>` in the standard layout modelled
here. -/
def indexRun (base : List BaseEntry) : List IndexEntry :=
  (sortEntries (base.filter (·.isDir))).flatMap (fun d =>
    (sortStrings (d.files.filter (endsWith (s2l ".jpg")))).map (fun f =>
      { item_uid := itemUid d.name (pyStem f)
        set_id := d.name
        index := pyStem f
        image_relpath := s2l "images/" ++ d.name ++ '/' :: f
        present := true }))

/-- Insert into a Python-dict model (association list, first occurrence of a
key is authoritative for `lookup`; overwriting keeps the key's position). -/
def dictInsert (al : List (List Char × List Char)) (k v : List Char) :
    List (List Char × List Char) :=
  if (al.lookup k).isSome then
    al.map (fun p => if p.1 = k then (k, v) else p)
  else
    al ++ [(k, v)]

/-- `_load_item_map` from `augment_polyvore_outfits_with_images.py`
(lines 28-40): build `item_uid → image_relpath`, skipping entries whose uid
or relpath is falsy (empty). -/
def loadItemMap (entries : List IndexEntry) : List (List Char × List Char) :=
  entries.foldl
    (fun al e =>
      if e.item_uid ≠ [] ∧ e.image_relpath ≠ [] then
        dictInsert al e.item_uid e.image_relpath
      else al)
    []

/-- One item reference inside an OutfitRecord, as read by the join step.
`item_uid` is `it.get("item_uid")`, which may be absent. -/
structure AugItem where
  item_uid : Option (List Char)
  local_image_relpath : Option (List Char)
  local_image_abspath : Option (List Char)
deriving DecidableEq

/-- One outfit record as read by the join step (only the `items` field is
inspected; all other fields pass through verbatim). -/
structure Outfit where
  items : List AugItem
deriving DecidableEq

/-- The per-item body of the join loop (`augment_...py` lines 74-80):
look the uid up in the mapping; a truthy (non-empty) hit gains the two
local-path fields and counts as resolved.  `.resolve()` normalization of the
absolute path is a filesystem operation and is modelled as the plain textual
join of the images root with the relative path. -/
def augmentItem (mapping : List (List Char × List Char))
    (imagesRoot : List Char) (it : AugItem) : AugItem × Bool :=
  match it.item_uid with
  | none => (it, false)
  | some uid =>
    match mapping.lookup uid with
    | some rel =>
      if rel ≠ [] then
        ({ it with local_image_relpath := some rel
                   local_image_abspath := some (imagesRoot ++ '/' :: rel) }, true)
      else (it, false)
    | none => (it, false)

/-- Statistics accumulated by the join loop. -/
structure JoinStats where
  total_outfits : Nat
  total_items : Nat
  resolved : Nat
deriving DecidableEq

/-- One iteration of the join loop (`augment_...py` lines 67-82): augment
the outfit's items, append the augmented outfit to the output, and bump the
three counters. -/
def augStep (mapping : List (List Char × List Char)) (imagesRoot : List Char)
    (acc : List Outfit × JoinStats) (o : Outfit) : List Outfit × JoinStats :=
  let its := o.items.map (augmentItem mapping imagesRoot)
  ( acc.1 ++ [⟨its.map Prod.fst⟩],
    { total_outfits := acc.2.total_outfits + 1
      total_items := acc.2.total_items + o.items.length
      resolved := acc.2.resolved + (its.filter Prod.snd).length } )

/-- The join loop of `augment_polyvore_outfits_with_images.py`
(lines 66-82): augment every item of every outfit and count. -/
def augmentRun (mapping : List (List Char × List Char)) (imagesRoot : List Char)
    (outfits : List Outfit) : List Outfit × JoinStats :=
  outfits.foldl (augStep mapping imagesRoot) ([], ⟨0, 0, 0⟩)

/-- The reported resolution percentage (`augment_...py` line 84):
`resolved / total_items * 100.0` and `0.0` when no items exist.  The division
is exact for the claim's case (`resolved = total_items`), so `ℚ` is a
faithful model of the float. -/
def resolutionPct (st : JoinStats) : ℚ :=
  if st.total_items = 0 then 0 else (st.resolved : ℚ) / (st.total_items : ℚ) * 100

/-! ### Detection Schema Converter
`tools/ml/convert_deepfashion2_to_coco.py`. -/

/-- A parsed JSON value, as Python's `json.load` produces it: numbers are
either `int` or `float` (floats restricted to the exact dyadic rationals that
occur here, modelled in `ℚ`); objects keep document order with unique keys. -/
inductive JVal where
  | jnull : JVal
  | jbool : Bool → JVal
  | jint : Int → JVal
  | jfloat : ℚ → JVal
  | jstr : List Char → JVal
  | jarr : List JVal → JVal
  | jobj : List (List Char × JVal) → JVal

/-- Python `isinstance(v, int)`: `bool` is a subclass of `int`. -/
def JVal.asPyInt : JVal → Option Int
  | .jint n => some n
  | .jbool b => some (if b then 1 else 0)
  | _ => none

/-- Python `isinstance(v, (int, float))`, with the numeric value as `ℚ`. -/
def JVal.asPyNum : JVal → Option ℚ
  | .jint n => some (n : ℚ)
  | .jfloat q => some q
  | .jbool b => some (if b then 1 else 0)
  | _ => none

/-- One annotation document together with the filesystem facts the converter
consults for it: the JSON object fields (parsed dict, unique keys, document
order), the file stem, whether `<stem>.jpg` / `<stem>.png` exists in the
sibling image directory, and the pixel size PIL would report (the external
image-decoding collaborator, used only when the declared fields are absent or
non-integral). -/
structure DocInput where
  stem : List Char
  fields : List (List Char × JVal)
  jpgExists : Bool
  pngExists : Bool
  pilSize : Int × Int

/-- Lookup of a key in a parsed JSON object (`anno.get(k)`). -/
def jget (fields : List (List Char × JVal)) (k : List Char) : Option JVal :=
  (fields.lookup k)

/-- A COCO image record (`convert_...py` lines 109-111). -/
structure CocoImage where
  id : Nat
  file_name : List Char
  width : Int
  height : Int
deriving DecidableEq

/-- A COCO detection annotation (`convert_...py` lines 139-149).  `bbox` is
`[x, y, w, h]`; `iscrowd` is fixed to 0 and `segmentation` to `[]` by the
source, so they are not carried. -/
structure CocoAnn where
  id : Nat
  image_id : Nat
  category_id : Int
  bbox : ℚ × ℚ × ℚ × ℚ
  area : ℚ
deriving DecidableEq

/-- Converter run state: the three output arrays plus the
`cat_id_to_name` dict (association list in insertion order, `setdefault`
semantics) and the two sequential id counters. -/
structure ConvState where
  images : List CocoImage
  anns : List CocoAnn
  cats : List (Int × List Char)
  imageId : Nat
  annId : Nat
deriving DecidableEq

/-- The empty run state. -/
def convInit : ConvState := ⟨[], [], [], 0, 0⟩

/-- `dict.setdefault(k, v)`: insert only if the key is absent
(first writer wins; `convert_...py` line 131). -/
def setdefault (al : List (Int × List Char)) (k : Int) (v : List Char) :
    List (Int × List Char) :=
  if (al.lookup k).isSome then al else al ++ [(k, v)]

/-- Resolve the paired image file (`convert_...py` lines 87-96): try
`<stem>.jpg`, then `<stem>.png`, else skip the whole document. -/
def resolveImage (d : DocInput) : Option (List Char) :=
  if d.jpgExists then some (d.stem ++ s2l ".jpg")
  else if d.pngExists then some (d.stem ++ s2l ".png")
  else none

/-- Declared-or-decoded image size (`convert_...py` lines 100-107): use the
document's `height`/`width` fields only if both are Python ints; otherwise
fall back to the decoded pixel size.  (`int()` on a declared int is the
identity.) -/
def imageSize (d : DocInput) : Int × Int :=
  match (jget d.fields (s2l "height")).bind JVal.asPyInt,
        (jget d.fields (s2l "width")).bind JVal.asPyInt with
  | some h, some w => (w, h)
  | _, _ => d.pilSize

/-- The per-item body of the converter loop (`convert_...py` lines 113-150),
acting on the annotation list / category dict / annotation id counter.
Items are skipped unless: the key starts with "item", the value is a dict,
`bounding_box` is a list of exactly four Python numbers, and `category_id`
is a Python int.  A string `category_name` is recorded via `setdefault`
*before* the degeneracy filter; the annotation itself is emitted only when
both derived width and height exceed 1. -/
def processItem (imageId : Nat) (key : List Char) (v : JVal)
    (st : List CocoAnn × List (Int × List Char) × Nat) :
    List CocoAnn × List (Int × List Char) × Nat :=
  if ¬ (s2l "item").isPrefixOf key then st
  else match v with
    | .jobj fields =>
      let bbox := jget fields (s2l "bounding_box")
      let catId := jget fields (s2l "category_id")
      let catName := jget fields (s2l "category_name")
      match bbox with
      | some (.jarr [b1, b2, b3, b4]) =>
        match b1.asPyNum, b2.asPyNum, b3.asPyNum, b4.asPyNum with
        | some x1, some y1, some x2, some y2 =>
          match catId.bind JVal.asPyInt with
          | some cid =>
            let cats' := match catName with
              | some (.jstr nm) => setdefault st.2.1 cid nm
              | _ => st.2.1
            let w := max 0 (x2 - x1)
            let h := max 0 (y2 - y1)
            if w ≤ 1 ∨ h ≤ 1 then (st.1, cats', st.2.2)
            else
              ( st.1 ++ [{ id := st.2.2, image_id := imageId, category_id := cid
                           bbox := (x1, y1, w, h), area := w * h }],
                cats', st.2.2 + 1 )
          | none => st
        | _, _, _, _ => st
      | _ => st
    | _ => st

/-- Process one annotation document whose image file resolved to `imgName`
(`convert_...py` lines 98-152 without the final limit check): emit the
CanonicalImage, then fold the item loop over the document fields in
document order, then advance the image id. -/
def processDoc (st : ConvState) (d : DocInput) (imgName : List Char) : ConvState :=
  let (w, h) := imageSize d
  let img : CocoImage := { id := st.imageId, file_name := imgName, width := w, height := h }
  let (anns', cats', annId') :=
    d.fields.foldl (fun acc kv => processItem st.imageId kv.1 kv.2 acc)
      (st.anns, st.cats, st.annId)
  { images := st.images ++ [img], anns := anns', cats := cats'
    imageId := st.imageId + 1, annId := annId' }

/-- The converter main loop over documents in sorted-filename order
(`convert_...py` lines 84-154): skip documents whose image is missing (no id
is consumed), and stop once `limit` images are processed when `limit ≠ 0`. -/
def runConv (limit : Nat) : List DocInput → ConvState → ConvState
  | [], st => st
  | d :: ds, st =>
    match resolveImage d with
    | none => runConv limit ds st
    | some imgName =>
      let st' := processDoc st d imgName
      if limit ≠ 0 ∧ limit ≤ st'.imageId then st' else runConv limit ds st'

/-- The emitted `categories` array and the `classes.txt` listing
(`convert_...py` lines 156-158 and 166-168): category ids sorted ascending,
each paired with its first-seen name. -/
def emitCategories (st : ConvState) : List (Int × List Char) :=
  ((st.cats.map Prod.fst).mergeSort (fun a b => decide (a ≤ b))).map
    (fun cid => (cid, (st.cats.lookup cid).getD []))

/-! ### Archive Integrity Checker
`tools/deepfashion2/check_deepfashion2_zips.py`. -/

/-- One entry of a zip directory listing (`zf.infolist()`): name, directory
flag, and the general-purpose flag bits (bit 0 = per-entry encryption). -/
structure ZipEntry where
  filename : List Char
  isDirEntry : Bool
  flagBits : Nat
deriving DecidableEq

/-- Outcome of `zf.read(target)` under the run's password, the capability
delegated to the external archive-reading collaborator (pyzipper):
either the decrypted bytes, a `RuntimeError` (bad password / CRC mismatch),
or any other exception. -/
inductive ReadOutcome where
  | bytes : List Nat → ReadOutcome
  | runtimeError : ReadOutcome
  | otherError : ReadOutcome
deriving DecidableEq

/-- One archive as the checker sees it: whether the file exists, its entry
listing, and the read outcome for the picked entry under the run's
password. -/
structure ZipModel where
  present : Bool
  entries : List ZipEntry
  readResult : ReadOutcome
deriving DecidableEq

/-- The tagged per-archive messages of `_check_zip` (the full strings also
embed file/entry names; only the tag matters to the claims). -/
inductive CheckMsg where
  | missing | noEncrypted | decryptFailed | otherErr | readZero | notJson | okSample
deriving DecidableEq

/-- `_pick_encrypted_json` (`check_deepfashion2_zips.py` lines 39-49): first
non-directory entry whose name ends in `.json` and whose flag bit 0 is
set. -/
def pickEncryptedJson (entries : List ZipEntry) : Option (List Char) :=
  (entries.find? (fun e =>
    !e.isDirEntry && endsWith (s2l ".json") e.filename && (e.flagBits % 2 == 1))).map
    (·.filename)

/-- ASCII whitespace bytes stripped by `bytes.lstrip()`. -/
def isWsByte (b : Nat) : Bool :=
  b == 32 || b == 9 || b == 10 || b == 13 || b == 11 || b == 12

/-- `_check_zip` (`check_deepfashion2_zips.py` lines 52-74).  The Python
body is wrapped in `try/except`, so decryption and read failures become
`(False, msg)` return values; the function is total and never propagates
them (modelled by this being a total Lean function into `Bool × CheckMsg`).
`123` and `91` are the byte values of `{` and `[`. -/
def checkZip (a : ZipModel) : Bool × CheckMsg :=
  if ¬ a.present then (false, .missing)
  else
    match pickEncryptedJson a.entries with
    | none => (false, .noEncrypted)
    | some _ =>
      match a.readResult with
      | .runtimeError => (false, .decryptFailed)
      | .otherError => (false, .otherErr)
      | .bytes data =>
        if data = [] then (false, .readZero)
        else
          match (data.dropWhile isWsByte).head? with
          | some b => if b = 123 ∨ b = 91 then (true, .okSample) else (false, .notJson)
          | none => (false, .notJson)

/-- `ZIP_NAMES` (line 35): the required archives. -/
def zipNames : List (List Char) := [s2l "train.zip", s2l "validation.zip", s2l "test.zip"]

/-- `OPTIONAL_ZIPS` (line 36): the optional archives. -/
def optionalZips : List (List Char) := [s2l "json_for_validation.zip"]

/-- The per-archive report line kinds of `main` (lines 94-100). -/
inductive LineKind where
  | ok | fail | skip
deriving DecidableEq

/-- The report loop of `main` (`check_deepfashion2_zips.py` lines 90-103):
check each required then optional archive; a failing check of an absent
optional archive prints SKIP and does not set `failed`.  Returns the report
lines and the exit code (3 if any FAIL else 0). -/
def runChecker (env : List Char → ZipModel) : List (List Char × LineKind) × Nat :=
  let lines := (zipNames ++ optionalZips).map (fun name =>
    let r := checkZip (env name)
    if r.1 then (name, LineKind.ok)
    else if name ∈ optionalZips ∧ ¬ (env name).present then (name, LineKind.skip)
    else (name, LineKind.fail))
  (lines, if lines.any (fun l => l.2 == LineKind.fail) then 3 else 0)

/-! ### Tabular Repair
`_repair_purchase_history_csv` in `tools/ml/ingest_deep_fashion.py`. -/

/-- The corrupted header pattern `'rati\nng'` (line 76). -/
def patRati : List Char := s2l "rati\nng"

/-- Characters on which `str.splitlines` breaks. -/
def isLineSep (c : Char) : Bool :=
  c == '\n' || c == '\r' || c == '\x0b' || c == '\x0c' ||
  c == '\x1c' || c == '\x1d' || c == '\x1e' || c == '\u0085' ||
  c == '\u2028' || c == '\u2029'

/-- `str.splitlines(keepends=True)`: split after every line separator,
treating `'\r\n'` as a single separator; terminators are kept.  The second
argument accumulates the current line in reverse. -/
def splitlinesKeep : List Char → List Char → List (List Char)
  | [], acc => if acc = [] then [] else [acc.reverse]
  | c :: rest, acc =>
    if c = '\r' then
      match rest with
      | c2 :: rest2 =>
        if c2 = '\n' then (acc.reverse ++ ['\r', '\n']) :: splitlinesKeep rest2 []
        else (acc.reverse ++ ['\r']) :: splitlinesKeep (c2 :: rest2) []
      | [] => [acc.reverse ++ ['\r']]
    else if isLineSep c then (acc.reverse ++ [c]) :: splitlinesKeep rest []
    else splitlinesKeep rest (c :: acc)

/-- The four marker column-name fragments of the header heuristic
(`ingest_deep_fashion.py` line 88). -/
def hasAllFour (cand : List Char) : Bool :=
  isSubstr (s2l "user_id") cand && isSubstr (s2l "image_id") cand &&
  isSubstr (s2l "rating") cand && isSubstr (s2l "occasion") cand

/-- The bounded header scan (`ingest_deep_fashion.py` lines 83-92): pop up
to five lines, and after each pop test whether the concatenation of the
popped lines contains all four marker fragments; on success return the
candidate and the unread lines. -/
def scanHeader : Nat → List (List Char) → List Char →
    Option (List Char × List (List Char))
  | 0, _, _ => none
  | _ + 1, [], _ => none
  | k + 1, l :: rest, acc =>
    let cand := acc ++ l
    if hasAllFour cand then some (cand, rest) else scanHeader k rest cand

/-- The fast-path test (`ingest_deep_fashion.py` lines 69-73):
`text.find("\n") != -1` and the first line contains both "rating" and
"occasion".  `text[:text.find("\n")]` is the longest `'\n'`-free prefix. -/
def fastHeaderOk (text : List Char) : Bool :=
  let header := text.takeWhile (· ≠ '\n')
  header.length != text.length &&
  isSubstr (s2l "rating") header && isSubstr (s2l "occasion") header

/-- `_repair_purchase_history_csv` (`ingest_deep_fashion.py` lines 64-95)
after the permissive byte decode (the function's input here is the decoded
text).  Fast path: an intact-looking first line returns the text unchanged.
Otherwise the literal `'rati\nng' → 'rating'` replacement is applied, and a
bounded five-line scan searches for a header candidate; a hit is collapsed
to one line (all `'\r'` and `'\n'` removed) and glued to the unread
remainder; a miss returns the post-replacement text. -/
def repairCsv (text : List Char) : List Char :=
  if fastHeaderOk text then text
  else
    let text1 := replaceAll patRati (s2l "rating") text
    let lines := splitlinesKeep text1 []
    if lines = [] then []
    else
      match scanHeader 5 lines [] with
      | some (cand, rest) =>
        ((cand.filter (· ≠ '\r')).filter (· ≠ '\n')) ++ '\n' :: rest.flatten
      | none => text1

/-- The "first line" of a text, for stating header properties: the prefix
before the first line separator. -/
def firstLine (text : List Char) : List Char :=
  text.takeWhile (fun c => ¬ isLineSep c)

/-! ### Polyvore outfit ingestion
`tools/ml/ingest_polyvore.py`. -/

/-- Python `str(...)` for the optional integer fields interpolated into the
f-strings (`index` is an int in the source data; an absent key renders as
"None"). -/
def pyStrOptInt : Option Int → List Char
  | none => s2l "None"
  | some n => s2l (toString n)

/-- One raw item of an outfit's `items` array, with the fields the
ingestion reads (`ingest_polyvore.py` lines 87-99).  The pass-through
metadata fields (`name`, `price`, `likes`, `image`) are opaque JSON values
carried as-is and are modelled by an opaque payload index. -/
structure RawItem where
  index : Option Int
  categoryid : Option Int
  payload : Nat
deriving DecidableEq

/-- One raw outfit object (`ingest_polyvore.py` lines 80-84): `set_id`
already passed through `str(o.get("set_id",""))`. -/
structure RawOutfit where
  set_id : List Char
  items : List RawItem
deriving DecidableEq

/-- One normalized item reference written to the outfit manifest
(`ingest_polyvore.py` lines 89-100). -/
structure NormItem where
  item_uid : List Char
  set_id : List Char
  index : Option Int
  categoryid : Option Int
  payload : Nat
deriving DecidableEq

/-- One OutfitRecord written to the outfit manifest
(`ingest_polyvore.py` lines 103-112). -/
structure OutfitRecord where
  split : List Char
  outfit_uid : List Char
  set_id : List Char
  items : List NormItem
deriving DecidableEq

/-- Normalization of one raw item (`ingest_polyvore.py` lines 89-100). -/
def normItem (setId : List Char) (it : RawItem) : NormItem :=
  { item_uid := itemUid setId (pyStrOptInt it.index)
    set_id := setId
    index := it.index
    categoryid := it.categoryid
    payload := it.payload }

/-- The outfit-emission loop (`ingest_polyvore.py` lines 72-114): for each
split in order, for each outfit with a truthy `set_id`, normalize only the
first 8 items (`items[:8]`, line 86) and emit one record. -/
def ingestOutfits (splits : List (List Char × List RawOutfit)) : List OutfitRecord :=
  splits.flatMap (fun sp =>
    sp.2.filterMap (fun o =>
      if o.set_id = [] then none
      else some
        { split := sp.1
          outfit_uid := s2l "polyvore:" ++ o.set_id
          set_id := o.set_id
          items := (o.items.take 8).map (normItem o.set_id) }))

/-! ### Manifest Assembly
`tools/ml/ingest_deep_fashion.py`. -/

/-- `ImageRecord` (`ingest_deep_fashion.py` lines 35-40). -/
structure ImageRecord where
  outfit_uid : List Char
  image_id : List Char
  split : List Char
  image_relpath : List Char
deriving DecidableEq

/-- One parsed row of the repaired `purchase_history.csv`, after
`_load_purchase_history` stripped its fields; a key missing from the row
reads as the empty string (`r.get(key, "")` / falsy `None`). -/
structure MetaRow where
  user_id : List Char
  image_id : List Char
  category : List Char
  style : List Char
  season : List Char
  occasion : List Char
  rating : List Char
deriving DecidableEq

/-- One output record of the deep_fashion manifest
(`ingest_deep_fashion.py` lines 188-200).  The constant `source` and
`dataset_root` fields are omitted. -/
structure DFRecord where
  outfit_uid : List Char
  image_id : List Char
  split : List Char
  image_relpath : List Char
  user_ids : List (List Char)
  items : List (List Char × List Char)
  seasons : List (List Char)
  occasions : List (List Char)
  ratings : List (List Char)
deriving DecidableEq

/-- `by_image.get(image_id, [])` (`ingest_deep_fashion.py` lines 133-138,
153): the metadata rows grouped under an image id, in row order; rows with
an empty `image_id` are never grouped, and the empty id has no group. -/
def metaFor (rows : List MetaRow) (iid : List Char) : List MetaRow :=
  if iid = [] then [] else rows.filter (fun r => r.image_id = iid)

/-- The per-image aggregation loop (`ingest_deep_fashion.py` lines
155-180): first-occurrence-deduplicated non-empty user ids; item pairs for
rows with a category or style; non-empty seasons, occasions and ratings. -/
def buildRecord (img : ImageRecord) (ms : List MetaRow) : DFRecord :=
  { outfit_uid := img.outfit_uid
    image_id := img.image_id
    split := img.split
    image_relpath := img.image_relpath
    user_ids := ms.foldl (fun acc m =>
      if m.user_id ≠ [] ∧ m.user_id ∉ acc then acc ++ [m.user_id] else acc) []
    items := ms.filterMap (fun m =>
      if m.category ≠ [] ∨ m.style ≠ [] then some (m.category, m.style) else none)
    seasons := ms.filterMap (fun m => if m.season ≠ [] then some m.season else none)
    occasions := ms.filterMap (fun m => if m.occasion ≠ [] then some m.occasion else none)
    ratings := ms.filterMap (fun m => if m.rating ≠ [] then some m.rating else none) }

/-- Lexicographic comparison of the tuples `(r.split, r.image_id)`, as
Python's tuple `<=` computes it for the sort below. -/
def imgLeB (a b : ImageRecord) : Bool :=
  decide (a.split < b.split ∨ (a.split = b.split ∧ a.image_id ≤ b.image_id))

/-- The explicit output sort key (`ingest_deep_fashion.py` line 150):
`sorted(images, key=lambda r: (r.split, r.image_id))`, a stable mergesort
under lexicographic tuple comparison. -/
def sortImages (images : List ImageRecord) : List ImageRecord :=
  images.mergeSort imgLeB

/-- The manifest-emission pipeline of `main`
(`ingest_deep_fashion.py` lines 149-201): one record per primary image
record, in explicitly sorted order, merged with its metadata group. -/
def assembleManifest (images : List ImageRecord) (rows : List MetaRow) :
    List DFRecord :=
  (sortImages images).map (fun img => buildRecord img (metaFor rows img.image_id))

/-! ### Concrete scenario inputs used by the claim theorems -/

/-- The §8 scenario document: `{"height":300,"width":200,"item1":{...}}`
paired with an existing `.jpg` file.  The PIL size is deliberately set to a
garbage value to witness that the declared fields are used without decoding
the image. -/
def docC8 : DocInput :=
  { stem := s2l "000001"
    fields :=
      [ (s2l "height", .jint 300), (s2l "width", .jint 200),
        (s2l "item1", .jobj
          [ (s2l "bounding_box", .jarr [.jint 10, .jint 10, .jint 50, .jint 60]),
            (s2l "category_id", .jint 3),
            (s2l "category_name", .jstr (s2l "top")) ]) ]
    jpgExists := true, pngExists := false, pilSize := (0, 0) }

/-- The object fields of a shape-valid but degenerate item
(derived width 21/2 - 10 = 1/2 ≤ 1). -/
def degenerateItemFields : List (List Char × JVal) :=
  [ (s2l "bounding_box", .jarr [.jint 10, .jint 10, .jfloat (21/2), .jint 60]),
    (s2l "category_id", .jint 7),
    (s2l "category_name", .jstr (s2l "x")) ]

/-- A document whose single item is degenerate (width 1/2 ≤ 1) but passes
shape validation. -/
def docDegenerate : DocInput :=
  { stem := s2l "000002"
    fields := [ (s2l "item1", .jobj degenerateItemFields) ]
    jpgExists := true, pngExists := false, pilSize := (123, 456) }

/-- Two collection directories whose names and file stems compose to the
same ItemUID within one indexing run. -/
def baseClash : List BaseEntry :=
  [⟨s2l "1", true, [s2l "2_3.jpg"]⟩, ⟨s2l "1_2", true, [s2l "3.jpg"]⟩]

/-- An existing archive with one encrypted JSON entry whose read fails with
a `RuntimeError` (pyzipper's wrong-password / CRC-mismatch signal). -/
def zipWrongPw : ZipModel :=
  ⟨true, [⟨s2l "a.json", false, 1⟩], .runtimeError⟩

/-- A filesystem with no archives at all. -/
def envAbsent : List Char → ZipModel := fun _ => ⟨false, [], .otherError⟩

/-- Two image records with distinct (split, image id) keys. -/
def imgRecA : ImageRecord :=
  ⟨s2l "train:000001", s2l "000001", s2l "train", s2l "images/train/000001.jpg"⟩

/-- A second image record, val split. -/
def imgRecB : ImageRecord :=
  ⟨s2l "val:000001", s2l "000001", s2l "val", s2l "images/val/000001.jpg"⟩

/-- An outfit with nine items, the ninth to be dropped. -/
def outfitNine : RawOutfit :=
  ⟨s2l "9", [⟨some 0, none, 0⟩, ⟨some 1, none, 0⟩, ⟨some 2, none, 0⟩,
             ⟨some 3, none, 0⟩, ⟨some 4, none, 0⟩, ⟨some 5, none, 0⟩,
             ⟨some 6, none, 0⟩, ⟨some 7, none, 0⟩, ⟨some 8, none, 0⟩]⟩

/-- One split holding only `outfitNine`. -/
def splitsNine : List (List Char × List RawOutfit) :=
  [(s2l "train", [outfitNine])]

/-- The §8 join scenario: index mapping `polyvore:123_0 → images/123/0.jpg`. -/
def mapping123 : List (List Char × List Char) :=
  [(itemUid (s2l "123") (s2l "0"), s2l "images/123/0.jpg")]

/-- Two outfits both referencing ItemUID `polyvore:123_0`. -/
def outfits123 : List Outfit :=
  [⟨[⟨some (itemUid (s2l "123") (s2l "0")), none, none⟩]⟩,
   ⟨[⟨some (itemUid (s2l "123") (s2l "0")), none, none⟩]⟩]

/-! ### Predicates used to state the claims -/

/-- The invariant claimed for every emitted CanonicalAnnotation: derived
width and height exceed 1 and the area is their product. -/
def annGood (a : CocoAnn) : Prop :=
  1 < a.bbox.2.2.1 ∧ 1 < a.bbox.2.2.2 ∧ a.area = a.bbox.2.2.1 * a.bbox.2.2.2

/-- The manifest sort key of an image record
(`key=lambda r: (r.split, r.image_id)`). -/
def imgKey (r : ImageRecord) : List Char × List Char := (r.split, r.image_id)

/-- Lexicographic `(split, image_id)` order on emitted manifest records. -/
def dfLe (a b : DFRecord) : Prop :=
  a.split < b.split ∨ (a.split = b.split ∧ a.image_id ≤ b.image_id)

/-- Non-strict lexicographic key order on image records. -/
def imgLe (a b : ImageRecord) : Prop :=
  a.split < b.split ∨ (a.split = b.split ∧ a.image_id ≤ b.image_id)

/-- Strict lexicographic key order on image records. -/
def imgLt (a b : ImageRecord) : Prop :=
  a.split < b.split ∨ (a.split = b.split ∧ a.image_id < b.image_id)

end PrismStyle

namespace PrismStyle

set_option maxRecDepth 4000

/-! ## Claim theorems -/

/-- **C8.** Converting the §8 scenario document
`{"height":300,"width":200,"item1":{"bounding_box":[10,10,50,60],
"category_id":3,"category_name":"top"}}` whose paired image file exists
yields exactly one CanonicalImage with width 200 and height 300 (taken from
the declared fields: the modelled decoded pixel size is (0,0) and is not
consulted) and exactly one CanonicalAnnotation with category_id 3, bbox
`[10,10,40,50]` in (x, y, width, height) form, and area 2000. -/
theorem c8_scenario_document_conversion :
    (runConv 0 [docC8] convInit).images =
      [{ id := 0, file_name := s2l "000001.jpg", width := 200, height := 300 }] ∧
    (runConv 0 [docC8] convInit).anns =
      [{ id := 0, image_id := 0, category_id := 3, bbox := (10, 10, 40, 50), area := 2000 }] := by
  with_unfolding_all decide

/-- **C6 counterexample.** A run on a document whose single item is
degenerate (derived width 1/2 ≤ 1): the item is skipped by the degeneracy
filter (no annotation is emitted) yet its category id and name land in the
CategoryRegistry, because `cat_id_to_name.setdefault` runs before the
`w <= 1.0 or h <= 1.0` check.  This falsifies the claim that a skipped item
contributes nothing to the registry. -/
theorem c6_counterexample_degenerate_item_feeds_registry :
    (runConv 0 [docDegenerate] convInit).anns = [] ∧
    (runConv 0 [docDegenerate] convInit).cats = [(7, s2l "x")] := by
  with_unfolding_all decide

/-- **C1 counterexample.** One indexing run over the two collection
directories `1` (file `2_3.jpg`) and `1_2` (file `3.jpg`) emits two entries
with distinct (collection, index) pairs but identical ItemUIDs
`"polyvore:1_2_3"`, so the composition is not injective; and a join run
whose single outfit has no item references reports 0, not 100, although
every referenced ItemUID (there are none) is present in the index. -/
theorem c1_counterexample_uid_collision_and_empty_pct :
    ((indexRun baseClash).map (·.item_uid) =
        [s2l "polyvore:1_2_3", s2l "polyvore:1_2_3"] ∧
      (indexRun baseClash).map (fun e => (e.set_id, e.index)) =
        [(s2l "1", s2l "2_3"), (s2l "1_2", s2l "3")]) ∧
    resolutionPct (augmentRun [] [] [⟨[]⟩]).2 = 0 := by
  with_unfolding_all decide

/-- **C5 counterexample.** On the input `"rati\nng\n"` the five-line header
scan finds no candidate (no line contains the four marker fragments), yet
the function returns `"rating\n"`, not the original input: the literal
`'rati\nng' → 'rating'` replacement already ran before the scan. -/
theorem c5_counterexample_scan_miss_returns_replaced_text :
    scanHeader 5 (splitlinesKeep (replaceAll patRati (s2l "rating") (s2l "rati\nng\n")) []) [] = none ∧
    repairCsv (s2l "rati\nng\n") = s2l "rating\n" ∧
    repairCsv (s2l "rati\nng\n") ≠ s2l "rati\nng\n" := by
  with_unfolding_all decide

/-- **C7 counterexample.** An input consisting of exactly one intact header
line with no trailing newline: its first line contains all four marker
fragments, yet the output is not equal to the input — the fast path
requires `text.find("\n") != -1`, so the scan path runs and appends a
newline. -/
theorem c7_counterexample_intact_header_without_newline_changed :
    hasAllFour (firstLine (s2l "user_id,image_id,rating,occasion")) = true ∧
    repairCsv (s2l "user_id,image_id,rating,occasion") =
      s2l "user_id,image_id,rating,occasion\n" ∧
    repairCsv (s2l "user_id,image_id,rating,occasion") ≠
      s2l "user_id,image_id,rating,occasion" := by
  with_unfolding_all decide

/-- **C4.** The Archive Integrity Checker classifies rather than crashes:
an existing archive with a picked encrypted entry whose read raises
(wrong password) is reported as FAIL with the decrypt/read message — the
model function is total, so nothing propagates; an absent archive from the
required set yields a FAIL line; an absent archive from the optional set
yields a SKIP line; the process exit code is 0 iff no line is FAIL. -/
theorem c4_checker_classification :
    (∀ a : ZipModel, a.present = true →
        (∃ t, pickEncryptedJson a.entries = some t) →
        a.readResult = ReadOutcome.runtimeError →
        checkZip a = (false, CheckMsg.decryptFailed)) ∧
    (∀ (env : List Char → ZipModel) name, name ∈ zipNames → (env name).present = false →
        (name, LineKind.fail) ∈ (runChecker env).1) ∧
    (∀ (env : List Char → ZipModel) name, name ∈ optionalZips → (env name).present = false →
        (name, LineKind.skip) ∈ (runChecker env).1) ∧
    (∀ env : List Char → ZipModel,
        (runChecker env).2 = 0 ↔ ∀ p ∈ (runChecker env).1, p.2 ≠ LineKind.fail) := by
  refine ⟨?_, ?_, ?_, ?_⟩
  · rintro a hp ⟨t, ht⟩ hr
    simp [checkZip, hp, ht, hr]
  · intro env name hn hp
    have hmiss : checkZip (env name) = (false, CheckMsg.missing) := by
      simp [checkZip, hp]
    have hnotopt : ¬ name ∈ optionalZips := by
      fin_cases hn <;> decide
    simp only [runChecker]
    exact List.mem_map.mpr ⟨name, List.mem_append_left _ hn, by simp [hmiss, hnotopt]⟩
  · intro env name hn hp
    have hmiss : checkZip (env name) = (false, CheckMsg.missing) := by
      simp [checkZip, hp]
    simp only [runChecker]
    refine List.mem_map.mpr ⟨name, List.mem_append_right _ hn, ?_⟩
    simp [hmiss, hn, hp]
  · intro env
    simp only [runChecker]
    rcases hA : (zipNames ++ optionalZips).map (fun name =>
        let r := checkZip (env name)
        if r.1 then (name, LineKind.ok)
        else if name ∈ optionalZips ∧ ¬ (env name).present then (name, LineKind.skip)
        else (name, LineKind.fail)) |>.any (fun l => l.2 == LineKind.fail) with
      _ | _
    · constructor
      · intro _ p hp
        have := List.any_eq_false.mp hA p hp
        simpa using this
      · intro _
        simp [hA]
    · obtain ⟨p, hp, hpf⟩ := List.any_eq_true.mp hA
      constructor
      · intro h0
        simp [hA] at h0
      · intro hall
        exact absurd (by simpa using hpf) (hall p hp)

/-- **C4 witness.** A concrete wrong-password archive reports a decrypt
failure; on a filesystem with no archives the required `train.zip` gets a
FAIL line and the optional `json_for_validation.zip` a SKIP line. -/
theorem c4_witness :
    checkZip zipWrongPw = (false, CheckMsg.decryptFailed) ∧
    (s2l "train.zip", LineKind.fail) ∈ (runChecker envAbsent).1 ∧
    (s2l "json_for_validation.zip", LineKind.skip) ∈ (runChecker envAbsent).1 :=
  ⟨c4_checker_classification.1 zipWrongPw rfl ⟨s2l "a.json", by decide⟩ rfl,
   c4_checker_classification.2.1 envAbsent _ (by decide) rfl,
   c4_checker_classification.2.2.1 envAbsent _ (by decide) rfl⟩

/-- **C9.** Every OutfitRecord emitted by the Polyvore ingestion carries at
most 8 item references, and the record emitted for an outfit with a truthy
set id normalizes exactly the first 8 entries of its items list (later
entries are dropped). -/
theorem c9_at_most_eight_items :
    (∀ splits r, r ∈ ingestOutfits splits → r.items.length ≤ 8) ∧
    (∀ splits sp (o : RawOutfit), sp ∈ splits → o ∈ sp.2 → o.set_id ≠ [] →
      ({ split := sp.1, outfit_uid := s2l "polyvore:" ++ o.set_id, set_id := o.set_id,
         items := (o.items.take 8).map (normItem o.set_id) } : OutfitRecord) ∈
        ingestOutfits splits) := by
  constructor
  · intro splits r hr
    rw [ingestOutfits, List.mem_flatMap] at hr
    obtain ⟨sp, _, hr⟩ := hr
    rw [List.mem_filterMap] at hr
    obtain ⟨o, _, ho⟩ := hr
    by_cases h : o.set_id = []
    · simp [h] at ho
    · simp only [h, if_false] at ho
      obtain rfl := Option.some.inj ho
      simp only [List.length_map, List.length_take]
      exact min_le_left _ _
  · intro splits sp o hsp ho hne
    rw [ingestOutfits, List.mem_flatMap]
    exact ⟨sp, hsp, List.mem_filterMap.mpr ⟨o, ho, by simp [hne]⟩⟩

/-- **C9 witness.** A nine-item outfit is emitted with exactly its first
eight items normalized, and its emitted record obeys the length bound. -/
theorem c9_witness :
    ({ split := s2l "train", outfit_uid := s2l "polyvore:" ++ outfitNine.set_id,
       set_id := outfitNine.set_id,
       items := (outfitNine.items.take 8).map (normItem outfitNine.set_id) } :
        OutfitRecord) ∈ ingestOutfits splitsNine ∧
    ((outfitNine.items.take 8).map (normItem outfitNine.set_id)).length ≤ 8 :=
  have hmem := c9_at_most_eight_items.2 splitsNine (s2l "train", [outfitNine]) outfitNine
    (by decide) (by decide) (by decide)
  ⟨hmem, c9_at_most_eight_items.1 splitsNine _ hmem⟩

/-! ### Converter invariants (helpers for C2 and C6) -/

/-- The item loop body only ever appends annotations with derived width and
height above 1 and area equal to their product. -/
theorem processItem_anns_good (imageId : Nat) (key : List Char) (v : JVal)
    (st : List CocoAnn × List (Int × List Char) × Nat)
    (h : ∀ a ∈ st.1, annGood a) :
    ∀ a ∈ (processItem imageId key v st).1, annGood a := by
  intro a ha
  unfold processItem at ha
  dsimp only at ha
  repeat' split at ha
  all_goals try exact h a ha
  all_goals dsimp only at ha
  all_goals rcases List.mem_append.mp ha with hmem | hmem
  all_goals try exact h a hmem
  all_goals rw [List.mem_singleton] at hmem
  all_goals subst hmem
  all_goals rename ¬(_ ∨ _) => hcond
  all_goals push_neg at hcond
  all_goals exact ⟨hcond.1, hcond.2, rfl⟩

/-- Folding the item loop over the document fields preserves the
annotation invariant. -/
theorem foldl_anns_good (imageId : Nat) (fields : List (List Char × JVal)) :
    ∀ st, (∀ a ∈ st.1, annGood a) →
      ∀ a ∈ (fields.foldl (fun acc kv => processItem imageId kv.1 kv.2 acc) st).1,
        annGood a := by
  induction fields with
  | nil => intro st h; exact h
  | cons kv rest ih =>
    intro st h
    exact ih _ (processItem_anns_good imageId kv.1 kv.2 st h)

/-- Processing one document preserves the annotation invariant. -/
theorem processDoc_anns_good (st : ConvState) (d : DocInput) (imgName : List Char)
    (h : ∀ a ∈ st.anns, annGood a) :
    ∀ a ∈ (processDoc st d imgName).anns, annGood a := by
  rcases hsz : imageSize d with ⟨w, hgt⟩
  rcases hfold : d.fields.foldl (fun acc kv => processItem st.imageId kv.1 kv.2 acc)
      (st.anns, st.cats, st.annId) with ⟨anns', cats', annId'⟩
  have hf := foldl_anns_good st.imageId d.fields (st.anns, st.cats, st.annId) h
  rw [hfold] at hf
  intro a ha
  unfold processDoc at ha
  rw [hsz, hfold] at ha
  exact hf a ha

/-- A whole converter run preserves the annotation invariant. -/
theorem runConv_anns_good (limit : Nat) :
    ∀ (docs : List DocInput) (st : ConvState), (∀ a ∈ st.anns, annGood a) →
      ∀ a ∈ (runConv limit docs st).anns, annGood a := by
  intro docs
  induction docs with
  | nil => intro st h; simpa [runConv] using h
  | cons d ds ih =>
    intro st h a ha
    rw [runConv] at ha
    rcases hres : resolveImage d with _ | nm <;> rw [hres] at ha <;> dsimp only at ha
    · exact ih st h a ha
    · split at ha
      · exact processDoc_anns_good st d nm h a ha
      · exact ih _ (processDoc_anns_good st d nm h) a ha

/-- **C2.** No CanonicalAnnotation with derived box width ≤ 1 or height ≤ 1
is ever emitted by a converter run (every emitted annotation has width > 1,
height > 1 and area = width·height); and for a document whose paired image
file resolves, the CanonicalImage is appended unconditionally — before and
independently of the item loop — so dropping all of a document's degenerate
items never suppresses its image. -/
theorem c2_no_degenerate_box_survives :
    (∀ (limit : Nat) (docs : List DocInput) (a : CocoAnn),
        a ∈ (runConv limit docs convInit).anns → annGood a) ∧
    (∀ (st : ConvState) (d : DocInput) (imgName : List Char),
        resolveImage d = some imgName →
        (processDoc st d imgName).images = st.images ++
          [{ id := st.imageId, file_name := imgName,
             width := (imageSize d).1, height := (imageSize d).2 }]) := by
  constructor
  · intro limit docs a ha
    exact runConv_anns_good limit docs convInit (by simp [convInit]) a ha
  · intro st d imgName _
    rcases hsz : imageSize d with ⟨w, hgt⟩
    rcases hfold : d.fields.foldl (fun acc kv => processItem st.imageId kv.1 kv.2 acc)
        (st.anns, st.cats, st.annId) with ⟨anns', cats', annId'⟩
    unfold processDoc
    rw [hsz, hfold]

/-- **C2 witness.** The single annotation emitted for the §8 scenario
document satisfies the invariant, and the scenario document's image is
appended as soon as its image file resolves. -/
theorem c2_witness :
    annGood { id := 0, image_id := 0, category_id := 3, bbox := (10, 10, 40, 50), area := 2000 } ∧
    (processDoc convInit docC8 (s2l "000001.jpg")).images = convInit.images ++
      [{ id := convInit.imageId, file_name := s2l "000001.jpg",
         width := (imageSize docC8).1, height := (imageSize docC8).2 }] :=
  ⟨c2_no_degenerate_box_survives.1 0 [docC8] _ (by with_unfolding_all decide),
   c2_no_degenerate_box_survives.2 convInit docC8 (s2l "000001.jpg")
     (by with_unfolding_all decide)⟩

/-! ### Category registry helpers (for C6) -/

/-- Association-list lookup survives appending entries on the right. -/
theorem lookup_append_some {α β : Type} [BEq α] {al al2 : List (α × β)} {k : α} {nm : β}
    (h : al.lookup k = some nm) : (al ++ al2).lookup k = some nm := by
  induction al with
  | nil => simp [List.lookup] at h
  | cons p rest ih =>
    cases p with
    | mk k' v' =>
      rcases hbeq : k == k' with _ | _
      · rw [List.lookup, hbeq] at h
        rw [List.cons_append, List.lookup, hbeq]
        exact ih h
      · rw [List.lookup, hbeq] at h
        rw [List.cons_append, List.lookup, hbeq]
        exact h

/-- `setdefault` never disturbs an existing entry. -/
theorem setdefault_lookup_some {al : List (Int × List Char)} {k : Int} {nm : List Char}
    (k' : Int) (v : List Char) (h : al.lookup k = some nm) :
    (setdefault al k' v).lookup k = some nm := by
  unfold setdefault
  split
  · exact h
  · exact lookup_append_some h

/-- The item loop never overwrites an existing category-registry entry. -/
theorem processItem_cats_lookup (imageId : Nat) (key : List Char) (v : JVal)
    (st : List CocoAnn × List (Int × List Char) × Nat) {k : Int} {nm : List Char}
    (h : st.2.1.lookup k = some nm) :
    (processItem imageId key v st).2.1.lookup k = some nm := by
  unfold processItem
  dsimp only
  repeat' split
  all_goals try exact h
  all_goals exact setdefault_lookup_some _ _ h

/-- Folding the item loop preserves existing registry entries. -/
theorem foldl_cats_lookup (imageId : Nat) (fields : List (List Char × JVal)) :
    ∀ (st : List CocoAnn × List (Int × List Char) × Nat) {k : Int} {nm : List Char},
      st.2.1.lookup k = some nm →
      (fields.foldl (fun acc kv => processItem imageId kv.1 kv.2 acc) st).2.1.lookup k =
        some nm := by
  induction fields with
  | nil => intro st k nm h; exact h
  | cons kv rest ih =>
    intro st k nm h
    exact ih _ (processItem_cats_lookup imageId kv.1 kv.2 st h)

/-- Processing one document preserves existing registry entries. -/
theorem processDoc_cats_lookup (st : ConvState) (d : DocInput) (imgName : List Char)
    {k : Int} {nm : List Char} (h : st.cats.lookup k = some nm) :
    (processDoc st d imgName).cats.lookup k = some nm := by
  rcases hsz : imageSize d with ⟨w, hgt⟩
  rcases hfold : d.fields.foldl (fun acc kv => processItem st.imageId kv.1 kv.2 acc)
      (st.anns, st.cats, st.annId) with ⟨anns', cats', annId'⟩
  have hf := foldl_cats_lookup st.imageId d.fields (st.anns, st.cats, st.annId) h
  rw [hfold] at hf
  unfold processDoc
  rw [hsz, hfold]
  exact hf

/-- A whole converter run preserves existing registry entries: the first
writer of a category id wins for the rest of the run. -/
theorem runConv_cats_lookup (limit : Nat) :
    ∀ (docs : List DocInput) (st : ConvState) {k : Int} {nm : List Char},
      st.cats.lookup k = some nm →
      (runConv limit docs st).cats.lookup k = some nm := by
  intro docs
  induction docs with
  | nil => intro st k nm h; simpa [runConv] using h
  | cons d ds ih =>
    intro st k nm h
    rw [runConv]
    rcases hres : resolveImage d with _ | nm2 <;> dsimp only
    · exact ih st h
    · split
      · exact processDoc_cats_lookup st d nm2 h
      · exact ih _ (processDoc_cats_lookup st d nm2 h)

/-- **C6 (amended).** An item that passes shape validation (four-numeric
bounding box, integral category id, string category name) records its
category name in the registry via `setdefault` even when the degeneracy
filter then drops its annotation — the registry update precedes the filter
in the source; the name is recorded only on the first sighting of the id
(`setdefault` leaves an existing entry untouched, and a whole run never
overwrites one); and the emitted categories list is sorted ascending by
id. -/
theorem c6_amended_registry_semantics :
    (∀ (imageId : Nat) (key : List Char) (fields : List (List Char × JVal))
        (st : List CocoAnn × List (Int × List Char) × Nat)
        (b1 b2 b3 b4 : JVal) (x1 y1 x2 y2 : ℚ) (cid : Int) (nm : List Char),
      (s2l "item").isPrefixOf key = true →
      jget fields (s2l "bounding_box") = some (.jarr [b1, b2, b3, b4]) →
      b1.asPyNum = some x1 → b2.asPyNum = some y1 →
      b3.asPyNum = some x2 → b4.asPyNum = some y2 →
      (jget fields (s2l "category_id")).bind JVal.asPyInt = some cid →
      jget fields (s2l "category_name") = some (.jstr nm) →
      (processItem imageId key (.jobj fields) st).2.1 = setdefault st.2.1 cid nm ∧
      (max 0 (x2 - x1) ≤ 1 ∨ max 0 (y2 - y1) ≤ 1 →
        (processItem imageId key (.jobj fields) st).1 = st.1)) ∧
    (∀ (al : List (Int × List Char)) (k : Int) (v : List Char),
      (al.lookup k).isSome → setdefault al k v = al) ∧
    (∀ (limit : Nat) (docs : List DocInput) (st : ConvState) (k : Int) (nm : List Char),
      st.cats.lookup k = some nm →
      (runConv limit docs st).cats.lookup k = some nm) ∧
    (∀ st : ConvState, List.Pairwise (· ≤ ·) ((emitCategories st).map Prod.fst)) := by
  refine ⟨?_, ?_, ?_, ?_⟩
  · intro imageId key fields st b1 b2 b3 b4 x1 y1 x2 y2 cid nm
    intro hkey hbb h1 h2 h3 h4 hcid hnm
    unfold processItem
    rw [if_neg (by simp [hkey])]
    dsimp only
    rw [hbb]
    dsimp only
    rw [h1, h2, h3, h4]
    dsimp only
    rw [hcid]
    dsimp only
    rw [hnm]
    dsimp only
    constructor
    · split <;> rfl
    · intro hdeg
      rw [if_pos hdeg]
  · intro al k v h
    unfold setdefault
    rw [if_pos h]
  · intro limit docs st k nm h
    exact runConv_cats_lookup limit docs st h
  · intro st
    unfold emitCategories
    rw [List.map_map]
    have hid : (Prod.fst ∘ fun cid : Int => (cid, (st.cats.lookup cid).getD [])) = id := rfl
    rw [hid, List.map_id]
    have hp := @List.sorted_mergeSort Int (fun a b : Int => decide (a ≤ b))
      (fun a b c hab hbc =>
        decide_eq_true (le_trans (of_decide_eq_true hab) (of_decide_eq_true hbc)))
      (fun a b => by
        rcases le_total a b with h | h
        · simp [h]
        · simp [h])
      (st.cats.map Prod.fst)
    exact hp.imp (fun h => of_decide_eq_true h)

/-- **C6 witness.** The concrete degenerate item (width 1/2): its category
id 7 with name "x" is inserted into an empty registry even though its
annotation is dropped; a pre-existing entry for id 7 would have survived
unchanged; and an out-of-order registry is emitted sorted by id. -/
theorem c6_witness :
    ((processItem 0 (s2l "item1") (.jobj degenerateItemFields) ([], [], 0)).2.1 =
      setdefault [] 7 (s2l "x") ∧
    (processItem 0 (s2l "item1") (.jobj degenerateItemFields) ([], [], 0)).1 = []) ∧
    setdefault [(7, s2l "first")] 7 (s2l "second") = [(7, s2l "first")] ∧
    List.Pairwise (· ≤ ·)
      ((emitCategories ⟨[], [], [(9, s2l "b"), (2, s2l "a")], 0, 0⟩).map Prod.fst) :=
  have h := c6_amended_registry_semantics.1 0 (s2l "item1") degenerateItemFields
    ([], [], 0) (.jint 10) (.jint 10) (.jfloat (21/2)) (.jint 60)
    10 10 (21/2) 60 7 (s2l "x") (by decide) rfl rfl rfl rfl rfl rfl rfl
  ⟨⟨h.1, h.2 (by with_unfolding_all decide)⟩,
   c6_amended_registry_semantics.2.1 [(7, s2l "first")] 7 (s2l "second") (by decide),
   c6_amended_registry_semantics.2.2.2 ⟨[], [], [(9, s2l "b"), (2, s2l "a")], 0, 0⟩⟩

/-! ### Index/join helpers (for C10 and C1) -/

/-- Replacing the value at a key other than `uid` does not affect `uid`'s
absence. -/
theorem lookup_map_replace_none :
    ∀ {al : List (List Char × List Char)} {k v uid : List Char},
      al.lookup uid = none → uid ≠ k →
      (al.map (fun p => if p.1 = k then (k, v) else p)).lookup uid = none := by
  intro al
  induction al with
  | nil => intro k v uid _ _; rfl
  | cons p rest ih =>
    intro k v uid h0 hne
    rw [List.lookup] at h0
    rcases hbeq : uid == p.1 with _ | _
    · rw [hbeq] at h0
      rw [List.map_cons, List.lookup]
      by_cases hp : p.1 = k
      · rw [if_pos hp]
        have : (uid == k) = false := beq_false_of_ne (by simpa [hp] using hne)
        rw [this]
        exact ih h0 hne
      · rw [if_neg hp, hbeq]
        exact ih h0 hne
    · rw [hbeq] at h0
      exact absurd h0 (by simp)

/-- Appending entries with other keys does not affect `uid`'s absence. -/
theorem lookup_append_none {al l2 : List (List Char × List Char)} {uid : List Char}
    (h1 : al.lookup uid = none) (h2 : l2.lookup uid = none) :
    (al ++ l2).lookup uid = none := by
  induction al with
  | nil => simpa using h2
  | cons p rest ih =>
    rw [List.lookup] at h1
    rcases hbeq : uid == p.1 with _ | _
    · rw [hbeq] at h1
      rw [List.cons_append, List.lookup, hbeq]
      exact ih h1
    · rw [hbeq] at h1
      exact absurd h1 (by simp)

/-- `dictInsert` of a different key preserves `uid`'s absence. -/
theorem dictInsert_lookup_none {al : List (List Char × List Char)} {k v uid : List Char}
    (hal : al.lookup uid = none) (hk : k ≠ uid) :
    (dictInsert al k v).lookup uid = none := by
  unfold dictInsert
  split
  · exact lookup_map_replace_none hal (fun h => hk h.symm)
  · refine lookup_append_none hal ?_
    rw [List.lookup, beq_false_of_ne (fun h => hk h.symm)]
    rfl

/-- A uid mentioned by no index entry is absent from the loaded item map. -/
theorem loadItemMap_lookup_none (entries : List IndexEntry) (uid : List Char)
    (h : ∀ e ∈ entries, e.item_uid ≠ uid) :
    (loadItemMap entries).lookup uid = none := by
  have main : ∀ (es : List IndexEntry) (al : List (List Char × List Char)),
      (∀ e ∈ es, e.item_uid ≠ uid) → al.lookup uid = none →
      (es.foldl (fun al e =>
        if e.item_uid ≠ [] ∧ e.image_relpath ≠ [] then
          dictInsert al e.item_uid e.image_relpath
        else al) al).lookup uid = none := by
    intro es
    induction es with
    | nil => intro al _ h0; exact h0
    | cons e rest ih =>
      intro al hes h0
      rw [List.foldl_cons]
      refine ih _ (fun e' he' => hes e' (List.mem_cons_of_mem e he')) ?_
      split
      · exact dictInsert_lookup_none h0 (hes e (List.mem_cons_self e rest))
      · exact h0
  exact main entries [] h rfl

/-- **C10.** Index construction emits entries only for `.jpg` files: every
emitted relpath ends in `.jpg`, the number of emitted entries equals the
number of `.jpg` files across the collection directories (so non-`.jpg`
files produce no entry), and an item reference whose uid appears in no
emitted entry is left unresolved by the join step. -/
theorem c10_only_jpg_indexed :
    (∀ (base : List BaseEntry) (e : IndexEntry), e ∈ indexRun base →
      endsWith (s2l ".jpg") e.image_relpath = true) ∧
    (∀ base : List BaseEntry, (indexRun base).length =
      ((base.filter (·.isDir)).map
        (fun d => (d.files.filter (endsWith (s2l ".jpg"))).length)).sum) ∧
    (∀ (base : List BaseEntry) (uid : List Char) (it : AugItem) (root : List Char),
      (∀ e ∈ indexRun base, e.item_uid ≠ uid) → it.item_uid = some uid →
      augmentItem (loadItemMap (indexRun base)) root it = (it, false)) := by
  refine ⟨?_, ?_, ?_⟩
  · intro base e he
    rw [indexRun, List.mem_flatMap] at he
    obtain ⟨d, _, he⟩ := he
    rw [List.mem_map] at he
    obtain ⟨f, hf, rfl⟩ := he
    unfold sortStrings at hf
    rw [List.mem_mergeSort] at hf
    have hjpg : endsWith (s2l ".jpg") f = true := List.of_mem_filter hf
    dsimp only
    rw [endsWith, List.isSuffixOf_iff_suffix] at hjpg ⊢
    calc s2l ".jpg" <:+ f := hjpg
      _ <:+ (s2l "images/" ++ d.name ++ ['/']) ++ f := List.suffix_append _ f
      _ = s2l "images/" ++ d.name ++ '/' :: f := by simp
  · intro base
    rw [indexRun, List.length_flatMap]
    have hperm : (sortEntries (base.filter (·.isDir))).Perm (base.filter (·.isDir)) :=
      List.mergeSort_perm _ _
    refine ((hperm.map _).sum_eq).trans ?_
    simp [Function.comp_def, sortStrings, List.length_mergeSort]
  · intro base uid it root hnone huid
    have hmap := loadItemMap_lookup_none (indexRun base) uid hnone
    unfold augmentItem
    rw [huid]
    dsimp only
    rw [hmap]

/-- **C10 witness.** A collection directory holding only a `.png` file
produces an empty index (its length is the number of its `.jpg` files,
zero), and a reference to the uid its file would have had stays
unresolved. -/
theorem c10_witness :
    (indexRun [⟨s2l "9", true, [s2l "5.png"]⟩]).length =
      (([⟨s2l "9", true, [s2l "5.png"]⟩] : List BaseEntry).filter (·.isDir) |>.map
        (fun d => (d.files.filter (endsWith (s2l ".jpg"))).length)).sum ∧
    augmentItem (loadItemMap (indexRun [⟨s2l "9", true, [s2l "5.png"]⟩])) (s2l "root")
        ⟨some (itemUid (s2l "9") (s2l "5")), none, none⟩ =
      (⟨some (itemUid (s2l "9") (s2l "5")), none, none⟩, false) :=
  ⟨c10_only_jpg_indexed.2.1 [⟨s2l "9", true, [s2l "5.png"]⟩],
   c10_only_jpg_indexed.2.2 [⟨s2l "9", true, [s2l "5.png"]⟩] (itemUid (s2l "9") (s2l "5"))
     ⟨some (itemUid (s2l "9") (s2l "5")), none, none⟩ (s2l "root")
     (by with_unfolding_all decide) rfl⟩

/-! ### ItemUID / join helpers (for C1) -/

/-- Splitting a string at a separator character that occurs in neither
left part is unambiguous. -/
theorem append_sep_inj {c : Char} :
    ∀ {s1 s2 t1 t2 : List Char}, c ∉ s1 → c ∉ s2 →
      s1 ++ c :: t1 = s2 ++ c :: t2 → s1 = s2 ∧ t1 = t2 := by
  intro s1
  induction s1 with
  | nil =>
    intro s2 t1 t2 _ h2 heq
    cases s2 with
    | nil => simpa using heq
    | cons b s2' =>
      rw [List.nil_append, List.cons_append, List.cons_eq_cons] at heq
      exact absurd (heq.1 ▸ List.mem_cons_self b s2') h2
  | cons a s1' ih =>
    intro s2 t1 t2 h1 h2 heq
    cases s2 with
    | nil =>
      rw [List.nil_append, List.cons_append, List.cons_eq_cons] at heq
      exact absurd (heq.1 ▸ List.mem_cons_self a s1') h1
    | cons b s2' =>
      rw [List.cons_append, List.cons_append, List.cons_eq_cons] at heq
      obtain ⟨rfl, heq'⟩ := heq
      obtain ⟨rfl, rfl⟩ := ih (fun hm => h1 (List.mem_cons_of_mem a hm))
        (fun hm => h2 (List.mem_cons_of_mem a hm)) heq'
      exact ⟨rfl, rfl⟩

/-- Under the all-resolvable hypothesis, the join loop resolves every item:
the running resolved count keeps pace with the running item count. -/
theorem augmentRun_counts (mapping : List (List Char × List Char)) (root : List Char) :
    ∀ (outfits : List Outfit) (acc : List Outfit × JoinStats),
      (∀ o ∈ outfits, ∀ it ∈ o.items, (augmentItem mapping root it).2 = true) →
      (outfits.foldl (augStep mapping root) acc).2.resolved + acc.2.total_items =
      (outfits.foldl (augStep mapping root) acc).2.total_items + acc.2.resolved := by
  intro outfits
  induction outfits with
  | nil => intro acc _; rw [List.foldl_nil]; omega
  | cons o rest ih =>
    intro acc hall
    rw [List.foldl_cons]
    have hflt : ((o.items.map (augmentItem mapping root)).filter Prod.snd).length =
        o.items.length := by
      have heq : (o.items.map (augmentItem mapping root)).filter Prod.snd =
          o.items.map (augmentItem mapping root) :=
        List.filter_eq_self.mpr (fun x hx => by
          obtain ⟨it, hit, rfl⟩ := List.mem_map.mp hx
          exact hall o (List.mem_cons_self o rest) it hit)
      rw [heq, List.length_map]
    have hstep : (augStep mapping root acc o).2 =
        ⟨acc.2.total_outfits + 1, acc.2.total_items + o.items.length,
         acc.2.resolved + ((o.items.map (augmentItem mapping root)).filter Prod.snd).length⟩ :=
      rfl
    have hrec := ih (augStep mapping root acc o)
      (fun o' ho' => hall o' (List.mem_cons_of_mem o ho'))
    rw [hstep, hflt] at hrec
    dsimp only at hrec
    omega

/-- **C1 (amended).** ItemUID composition is injective for collection ids
that contain no underscore (with an underscore inside a collection id, two
distinct (collection, index) pairs can compose to the same ItemUID); and
when at least one item reference exists and every referenced ItemUID is
present in the loaded index with a non-empty path, the join resolves all
references and the reported percentage is exactly 100. -/
theorem c1_amended_uid_injectivity_and_full_resolution :
    (∀ s1 i1 s2 i2 : List Char, '_' ∉ s1 → '_' ∉ s2 →
      itemUid s1 i1 = itemUid s2 i2 → s1 = s2 ∧ i1 = i2) ∧
    (∀ (mapping : List (List Char × List Char)) (root : List Char) (outfits : List Outfit),
      (∀ o ∈ outfits, ∀ it ∈ o.items, ∃ uid rel,
        it.item_uid = some uid ∧ mapping.lookup uid = some rel ∧ rel ≠ []) →
      (augmentRun mapping root outfits).2.total_items ≠ 0 →
      resolutionPct (augmentRun mapping root outfits).2 = 100) := by
  constructor
  · intro s1 i1 s2 i2 h1 h2 heq
    refine append_sep_inj h1 h2 (@List.append_cancel_left Char (s2l "polyvore:") _ _ ?_)
    simpa [itemUid, List.append_assoc] using heq
  · intro mapping root outfits hres hne
    have hall : ∀ o ∈ outfits, ∀ it ∈ o.items, (augmentItem mapping root it).2 = true := by
      intro o ho it hit
      obtain ⟨uid, rel, hu, hl, hrel⟩ := hres o ho it hit
      unfold augmentItem
      rw [hu]
      dsimp only
      rw [hl]
      dsimp only
      rw [if_pos hrel]
    have hcnt := augmentRun_counts mapping root outfits ([], ⟨0, 0, 0⟩) hall
    have hresolved : (augmentRun mapping root outfits).2.resolved =
        (augmentRun mapping root outfits).2.total_items := by
      rw [augmentRun]
      dsimp only at hcnt ⊢
      omega
    rw [resolutionPct, if_neg hne, hresolved, div_self (by exact_mod_cast hne), one_mul]

/-- **C1 witness.** The §8 scenario: two outfits both referencing
`polyvore:123_0`, the index mapping that uid to `images/123/0.jpg` — the
reported resolution percentage is exactly 100; and the injectivity half
applies to the underscore-free collection id "123". -/
theorem c1_witness :
    resolutionPct (augmentRun mapping123 (s2l "Datasets/polyvore_images") outfits123).2 = 100 ∧
    (s2l "123" = s2l "123" ∧ s2l "0" = s2l "0") :=
  ⟨c1_amended_uid_injectivity_and_full_resolution.2 mapping123
      (s2l "Datasets/polyvore_images") outfits123
      (by
        intro o ho it hit
        refine ⟨itemUid (s2l "123") (s2l "0"), s2l "images/123/0.jpg", ?_, by decide, by decide⟩
        rw [outfits123] at ho
        rcases List.mem_cons.mp ho with rfl | hcase
        · dsimp only at hit
          rw [List.mem_singleton] at hit
          subst hit
          rfl
        · rw [List.mem_singleton] at hcase
          subst hcase
          dsimp only at hit
          rw [List.mem_singleton] at hit
          subst hit
          rfl)
      (by decide),
   c1_amended_uid_injectivity_and_full_resolution.1 (s2l "123") (s2l "0") (s2l "123") (s2l "0")
     (by decide) (by decide) rfl⟩

/-! ### Tabular-repair helpers (for C5 and C7) -/

/-- A text without an occurrence of the pattern is left unchanged by the
replacement. -/
theorem replaceAll_of_not_substr {pat rep : List Char} :
    ∀ {s : List Char}, isSubstr pat s = false → replaceAll pat rep s = s := by
  intro s
  induction s with
  | nil => intro _; rw [replaceAll]
  | cons c rest ih =>
    intro h
    rw [isSubstr, Bool.or_eq_false_iff] at h
    rw [replaceAll, dif_neg (fun hc => by rw [h.1] at hc; exact absurd hc.2 (by simp))]
    rw [ih h.2]

/-- `splitlines` returns at least one line unless both the text and the
pending accumulator are empty. -/
theorem splitlinesKeep_eq_nil {s acc : List Char} (h : splitlinesKeep s acc = []) :
    s = [] ∧ acc = [] := by
  induction s generalizing acc with
  | nil =>
    rw [splitlinesKeep] at h
    split at h
    · exact ⟨rfl, by assumption⟩
    · exact absurd h (by simp)
  | cons c rest ih =>
    exfalso
    rw [splitlinesKeep.eq_def] at h
    dsimp only at h
    by_cases hc : c = '\r'
    · rw [if_pos hc] at h
      cases rest with
      | nil => simp at h
      | cons c2 rest2 =>
        dsimp only at h
        by_cases hc2 : c2 = '\n'
        · rw [if_pos hc2] at h; simp at h
        · rw [if_neg hc2] at h; simp at h
    · rw [if_neg hc] at h
      by_cases hsep : isLineSep c = true
      · rw [if_pos hsep] at h; simp at h
      · rw [if_neg hsep] at h
        exact absurd (ih h).2 (by simp)

/-- **C5 (amended).** When the fast path does not fire and the bounded
five-line header scan finds no qualifying candidate, the function returns
the input *after* the one literal `'rati\nng' → 'rating'` replacement — not
necessarily the original text; in particular the return equals the decoded
input byte-for-byte exactly when the input contains no occurrence of the
split pattern. -/
theorem c5_amended_scan_miss_returns_replaced :
    ∀ text : List Char, fastHeaderOk text = false →
      scanHeader 5 (splitlinesKeep (replaceAll patRati (s2l "rating") text) []) [] = none →
      (repairCsv text = replaceAll patRati (s2l "rating") text ∧
       (isSubstr patRati text = false → repairCsv text = text)) := by
  intro text hfast hscan
  have hmain : repairCsv text = replaceAll patRati (s2l "rating") text := by
    unfold repairCsv
    rw [if_neg (by rw [hfast]; exact Bool.false_ne_true)]
    by_cases hnil : splitlinesKeep (replaceAll patRati (s2l "rating") text) [] = []
    · rw [if_pos hnil]
      have := (splitlinesKeep_eq_nil hnil).1
      rw [this]
    · rw [if_neg hnil, hscan]
  exact ⟨hmain, fun hno => hmain.trans (replaceAll_of_not_substr hno)⟩

/-- **C5 witness.** On the fragment-free input "abc" the fast path fails,
the scan finds no candidate, and the function returns the input
unchanged. -/
theorem c5_witness : repairCsv (s2l "abc") = s2l "abc" :=
  (c5_amended_scan_miss_returns_replaced (s2l "abc") (by decide)
    (by with_unfolding_all decide)).2 (by decide)

/-! ### Sort-order helpers (for C3) -/

/-- The manifest sort comparison is transitive. -/
theorem imgLeB_trans (a b c : ImageRecord)
    (hab : imgLeB a b = true) (hbc : imgLeB b c = true) : imgLeB a c = true := by
  rw [imgLeB, decide_eq_true_iff] at hab hbc ⊢
  rcases hab with h1 | ⟨h1, h1'⟩ <;> rcases hbc with h2 | ⟨h2, h2'⟩
  · exact Or.inl (lt_trans h1 h2)
  · exact Or.inl (h2 ▸ h1)
  · exact Or.inl (h1 ▸ h2)
  · exact Or.inr ⟨h1.trans h2, le_trans h1' h2'⟩

/-- The manifest sort comparison is total. -/
theorem imgLeB_total (a b : ImageRecord) : (imgLeB a b || imgLeB b a) = true := by
  rw [Bool.or_eq_true, imgLeB, imgLeB, decide_eq_true_iff, decide_eq_true_iff]
  rcases lt_trichotomy a.split b.split with h | h | h
  · exact Or.inl (Or.inl h)
  · rcases le_total a.image_id b.image_id with h' | h'
    · exact Or.inl (Or.inr ⟨h, h'⟩)
    · exact Or.inr (Or.inr ⟨h.symm, h'⟩)
  · exact Or.inr (Or.inl h)

/-- The strict key order is asymmetric. -/
theorem imgLt_asymm (a b : ImageRecord) (h1 : imgLt a b) (h2 : imgLt b a) : False := by
  rw [imgLt] at h1 h2
  rcases h1 with h1 | ⟨e1, l1⟩ <;> rcases h2 with h2 | ⟨e2, l2⟩
  · exact lt_asymm h1 h2
  · exact absurd (e2 ▸ h1) (lt_irrefl _)
  · exact absurd (e1 ▸ h2) (lt_irrefl _)
  · exact lt_asymm l1 l2

/-- **C3.** Manifest Assembly emits its records sorted ascending by the
pair (split, image identifier); and for any two enumerations of the same
primary records (permutations of each other) with pairwise-distinct keys —
which filesystem enumeration guarantees, one stem per split directory —
the emitted manifest is identical, so two runs on identical inputs produce
byte-identical output under any fixed serialization. -/
theorem c3_manifest_sorted_and_order_independent :
    (∀ (images : List ImageRecord) (rows : List MetaRow),
      List.Pairwise dfLe (assembleManifest images rows)) ∧
    (∀ (l1 l2 : List ImageRecord) (rows : List MetaRow),
      l1.Perm l2 → List.Pairwise (fun a b => imgKey a ≠ imgKey b) l1 →
      assembleManifest l1 rows = assembleManifest l2 rows) := by
  have hsorted : ∀ l : List ImageRecord,
      List.Pairwise (fun a b => imgLeB a b = true) (sortImages l) :=
    fun l => List.sorted_mergeSort imgLeB_trans imgLeB_total l
  have hkeysymm : ∀ {x y : ImageRecord}, imgKey x ≠ imgKey y → imgKey y ≠ imgKey x :=
    fun h he => h he.symm
  constructor
  · intro images rows
    rw [assembleManifest, List.pairwise_map]
    refine (hsorted images).imp ?_
    intro a b hab
    rw [imgLeB, decide_eq_true_iff] at hab
    exact hab
  · intro l1 l2 rows hperm hkeys
    have hp12 : (sortImages l1).Perm (sortImages l2) :=
      ((List.mergeSort_perm l1 imgLeB).trans hperm).trans
        (List.mergeSort_perm l2 imgLeB).symm
    have hk1 : List.Pairwise (fun a b => imgKey a ≠ imgKey b) (sortImages l1) :=
      ((List.mergeSort_perm l1 imgLeB).pairwise_iff hkeysymm).mpr hkeys
    have hk2 : List.Pairwise (fun a b => imgKey a ≠ imgKey b) (sortImages l2) :=
      (hp12.pairwise_iff hkeysymm).mp hk1
    have hstrict : ∀ l : List ImageRecord,
        List.Pairwise (fun a b => imgLeB a b = true) l →
        List.Pairwise (fun a b => imgKey a ≠ imgKey b) l →
        List.Pairwise imgLt l := by
      intro l hle hne
      refine (hle.and hne).imp ?_
      rintro a b ⟨hab, hkne⟩
      rw [imgLeB, decide_eq_true_iff] at hab
      rw [imgLt]
      rcases hab with h | ⟨he, hid⟩
      · exact Or.inl h
      · refine Or.inr ⟨he, lt_of_le_of_ne hid ?_⟩
        intro hideq
        exact hkne (by rw [imgKey, imgKey, he, hideq])
    have heq : sortImages l1 = sortImages l2 := by
      haveI : IsAntisymm ImageRecord imgLt :=
        ⟨fun a b h1 h2 => (imgLt_asymm a b h1 h2).elim⟩
      exact List.eq_of_perm_of_sorted hp12
        (hstrict _ (hsorted l1) hk1) (hstrict _ (hsorted l2) hk2)
    rw [assembleManifest, assembleManifest, heq]

/-- **C3 witness.** Two enumerations of the same two records in opposite
orders assemble to the identical manifest. -/
theorem c3_witness :
    assembleManifest [imgRecA, imgRecB] [] = assembleManifest [imgRecB, imgRecA] [] :=
  c3_manifest_sorted_and_order_independent.2 [imgRecA, imgRecB] [imgRecB, imgRecA] []
    (by decide) (by decide)

/-! ### Header-repair string lemmas (for C7) -/

/-- A substring of `u` is a substring of `u ++ v`. -/
theorem isSubstr_append_right {n : List Char} :
    ∀ {u : List Char} (v : List Char), isSubstr n u = true → isSubstr n (u ++ v) = true := by
  intro u
  induction u with
  | nil =>
    intro v h
    rw [isSubstr, List.isEmpty_iff] at h
    subst h
    cases v with
    | nil => rfl
    | cons c w => rw [List.nil_append, isSubstr]; simp [List.isPrefixOf]
  | cons c u' ih =>
    intro v h
    rw [isSubstr, Bool.or_eq_true] at h
    rw [List.cons_append, isSubstr, Bool.or_eq_true]
    rcases h with h | h
    · refine Or.inl (List.isPrefixOf_iff_prefix.mpr ?_)
      exact (List.isPrefixOf_iff_prefix.mp h).trans (List.prefix_append _ _)
    · exact Or.inr (ih v h)

/-- All four marker fragments survive appending on the right. -/
theorem hasAllFour_append_right {u : List Char} (v : List Char)
    (h : hasAllFour u = true) : hasAllFour (u ++ v) = true := by
  rw [hasAllFour, Bool.and_eq_true, Bool.and_eq_true, Bool.and_eq_true] at h
  obtain ⟨⟨⟨h1, h2⟩, h3⟩, h4⟩ := h
  rw [hasAllFour, isSubstr_append_right v h1, isSubstr_append_right v h2,
    isSubstr_append_right v h3, isSubstr_append_right v h4]
  rfl

/-- `takeWhile` passes over a block of characters that all satisfy the
predicate. -/
theorem takeWhile_append_all {p : Char → Bool} :
    ∀ {u : List Char} (v : List Char), (∀ c ∈ u, p c = true) →
      (u ++ v).takeWhile p = u ++ v.takeWhile p := by
  intro u
  induction u with
  | nil => intro v _; rfl
  | cons c u' ih =>
    intro v h
    rw [List.cons_append, List.takeWhile_cons, h c (List.mem_cons_self c u'), if_pos rfl,
      ih v (fun c' hc' => h c' (List.mem_cons_of_mem c hc')), List.cons_append]

/-- A non-separator character is not a newline. -/
theorem ne_nl_of_not_sep {c : Char} (h : isLineSep c = false) : c ≠ '\n' :=
  fun he => by rw [he] at h; exact absurd h (by decide)

/-- A non-separator character is not a carriage return. -/
theorem ne_cr_of_not_sep {c : Char} (h : isLineSep c = false) : c ≠ '\r' :=
  fun he => by rw [he] at h; exact absurd h (by decide)

/-- The pattern `'rati\nng'` cannot start strictly inside a newline-free
prefix: its fifth character is a newline, but the first five characters at
any such position are newline-free. -/
theorem patRati_not_prefix {c : Char} {pre' tail : List Char}
    (hc : c ≠ '\n') (hpre' : '\n' ∉ pre') :
    ¬ patRati.isPrefixOf (c :: (pre' ++ (patRati ++ tail))) = true := by
  intro hpf
  obtain ⟨t, ht⟩ := List.isPrefixOf_iff_prefix.mp hpf
  have h4 : (patRati ++ t)[4]? = some '\n' := by
    rw [List.getElem?_append_left (by decide)]
    rfl
  rw [ht] at h4
  have hsplit : c :: (pre' ++ (patRati ++ tail)) =
      ((c :: pre') ++ s2l "rati") ++ ('\n' :: (s2l "ng" ++ tail)) := by
    rw [show patRati = s2l "rati" ++ '\n' :: s2l "ng" from rfl]
    simp [List.append_assoc]
  rw [hsplit] at h4
  have hlen : 4 < ((c :: pre') ++ s2l "rati").length := by
    rw [List.length_append, List.length_cons]
    have : (s2l "rati").length = 4 := rfl
    omega
  rw [List.getElem?_append_left hlen] at h4
  have hmem : '\n' ∈ (c :: pre') ++ s2l "rati" := List.getElem?_mem h4
  rcases List.mem_append.mp hmem with hm | hm
  · rcases List.mem_cons.mp hm with hm | hm
    · exact hc hm.symm
    · exact hpre' hm
  · exact absurd hm (by decide)

/-- The replacement rejoins the split pattern at the first line boundary of
a newline-free prefix, leaving the prefix intact. -/
theorem replaceAll_cross :
    ∀ (pre tail : List Char), '\n' ∉ pre →
      replaceAll patRati (s2l "rating") (pre ++ (patRati ++ tail)) =
      pre ++ (s2l "rating" ++ replaceAll patRati (s2l "rating") tail) := by
  intro pre
  induction pre with
  | nil =>
    intro tail _
    rw [List.nil_append, List.nil_append]
    rw [show patRati ++ tail = 'r' :: (s2l "ati\nng" ++ tail) from rfl]
    rw [replaceAll]
    rw [dif_pos ⟨by decide, by
      rw [show 'r' :: (s2l "ati\nng" ++ tail) = patRati ++ tail from rfl]
      exact List.isPrefixOf_iff_prefix.mpr (List.prefix_append _ _)⟩]
    congr 1
  | cons c pre' ih =>
    intro tail hnl
    have hc : c ≠ '\n' := fun h => hnl (h ▸ List.mem_cons_self c pre')
    have hpre' : '\n' ∉ pre' := fun h => hnl (List.mem_cons_of_mem c h)
    rw [List.cons_append, replaceAll]
    rw [dif_neg (fun hand => patRati_not_prefix hc hpre' hand.2)]
    rw [ih tail hpre', List.cons_append]

/-- `splitlines` cuts the first line exactly at the first newline when the
prefix contains no line separator. -/
theorem splitlinesKeep_cross :
    ∀ (u : List Char), (∀ c ∈ u, isLineSep c = false) →
      ∀ (rest acc : List Char),
        splitlinesKeep (u ++ '\n' :: rest) acc =
          ((acc.reverse ++ u) ++ ['\n']) :: splitlinesKeep rest [] := by
  intro u
  induction u with
  | nil =>
    intro _ rest acc
    rw [List.nil_append, splitlinesKeep.eq_def]
    dsimp only
    rw [if_neg (by decide : ¬ ('\n' = '\r')), if_pos (by decide : isLineSep '\n' = true)]
    simp
  | cons ch u' ih =>
    intro hsep rest acc
    have hch : isLineSep ch = false := hsep ch (List.mem_cons_self ch u')
    have hchr : ¬ ch = '\r' := fun h => by rw [h] at hch; exact absurd hch (by decide)
    rw [List.cons_append, splitlinesKeep.eq_def]
    dsimp only
    rw [if_neg hchr, if_neg (by rw [hch]; exact Bool.false_ne_true)]
    rw [ih (fun c hc => hsep c (List.mem_cons_of_mem ch hc)) rest (ch :: acc)]
    simp [List.append_assoc]

/-- **C7 (amended).** For every input whose header carries the known
`'rati\nng'` split at its first line boundary — with no line separator
elsewhere in the header, the fragment "rating" not already present before
the split, the split pattern occurring nowhere else, and the rejoined
header containing all four marker fragments — the repaired output's first
line contains all four marker fragments.  And for every input that
contains at least one newline and whose first line contains all four
marker fragments, the output equals the input unchanged (an intact header
with no trailing newline instead gains one, per the counterexample). -/
theorem c7_amended_header_repair :
    (∀ pre mid rest : List Char,
      (∀ c ∈ pre, isLineSep c = false) →
      (∀ c ∈ mid, isLineSep c = false) →
      isSubstr (s2l "rating") (pre ++ s2l "rati") = false →
      isSubstr patRati (mid ++ '\n' :: rest) = false →
      hasAllFour (pre ++ (s2l "rating" ++ mid)) = true →
      hasAllFour (firstLine (repairCsv (pre ++ (patRati ++ (mid ++ '\n' :: rest))))) = true) ∧
    (∀ text : List Char,
      (text.takeWhile (fun c => c ≠ '\n')).length ≠ text.length →
      hasAllFour (text.takeWhile (fun c => c ≠ '\n')) = true →
      repairCsv text = text) := by
  constructor
  · intro pre mid rest hpre hmid hnofast hnorest hfour
    have hpreNL : '\n' ∉ pre := fun hm => ne_nl_of_not_sep (hpre '\n' hm) rfl
    -- the header the fast path inspects is `pre ++ "rati"`
    have hheader : (pre ++ (patRati ++ (mid ++ '\n' :: rest))).takeWhile
        (fun c => decide (c ≠ '\n')) = pre ++ s2l "rati" := by
      rw [takeWhile_append_all _
        (fun c hc => decide_eq_true (ne_nl_of_not_sep (hpre c hc)))]
      rw [show patRati ++ (mid ++ '\n' :: rest) =
        s2l "rati" ++ ('\n' :: (s2l "ng" ++ (mid ++ '\n' :: rest))) from rfl]
      rw [takeWhile_append_all _ (by decide)]
      rw [List.takeWhile_cons]
      rw [if_neg (by decide)]
      rw [List.append_nil]
    have hfastF : fastHeaderOk (pre ++ (patRati ++ (mid ++ '\n' :: rest))) = false := by
      unfold fastHeaderOk
      dsimp only
      rw [hheader, hnofast]
      simp
    -- the replacement rejoins the header and touches nothing else
    have hrepl : replaceAll patRati (s2l "rating") (pre ++ (patRati ++ (mid ++ '\n' :: rest))) =
        (pre ++ (s2l "rating" ++ mid)) ++ '\n' :: rest := by
      rw [replaceAll_cross pre _ hpreNL, replaceAll_of_not_substr hnorest]
      simp [List.append_assoc]
    have husep : ∀ c ∈ pre ++ (s2l "rating" ++ mid), isLineSep c = false := by
      intro c hc
      rcases List.mem_append.mp hc with hm | hm
      · exact hpre c hm
      · rcases List.mem_append.mp hm with hm | hm
        · exact (by decide : ∀ x ∈ s2l "rating", isLineSep x = false) c hm
        · exact hmid c hm
    -- the collapsed header is exactly `pre ++ "rating" ++ mid`
    have hfilter : (((pre ++ (s2l "rating" ++ mid)) ++ ['\n']).filter
          (fun c => decide (c ≠ '\r'))).filter (fun c => decide (c ≠ '\n')) =
        pre ++ (s2l "rating" ++ mid) := by
      rw [List.filter_append, List.filter_append]
      rw [List.filter_eq_self.mpr
        (fun c hc => decide_eq_true (ne_cr_of_not_sep (husep c hc)))]
      rw [show (['\n'].filter (fun c => decide (c ≠ '\r'))) = ['\n'] from rfl]
      rw [List.filter_eq_self.mpr
        (fun c hc => decide_eq_true (ne_nl_of_not_sep (husep c hc)))]
      rw [show (['\n'].filter (fun c => decide (c ≠ '\n'))) = [] from rfl]
      rw [List.append_nil]
    have hval : repairCsv (pre ++ (patRati ++ (mid ++ '\n' :: rest))) =
        (pre ++ (s2l "rating" ++ mid)) ++ '\n' :: (splitlinesKeep rest []).flatten := by
      unfold repairCsv
      rw [if_neg (by rw [hfastF]; exact Bool.false_ne_true)]
      dsimp only
      rw [hrepl]
      rw [splitlinesKeep_cross _ husep rest []]
      rw [List.reverse_nil, List.nil_append]
      rw [if_neg (by simp)]
      rw [show scanHeader 5 (((pre ++ (s2l "rating" ++ mid)) ++ ['\n']) ::
            splitlinesKeep rest []) [] =
          some ((pre ++ (s2l "rating" ++ mid)) ++ ['\n'], splitlinesKeep rest []) from by
        rw [scanHeader]
        rw [List.nil_append]
        rw [if_pos (hasAllFour_append_right ['\n'] hfour)]]
      dsimp only
      rw [hfilter]
    rw [hval]
    unfold firstLine
    rw [takeWhile_append_all _ (fun c hc => decide_eq_true
      (show ¬ isLineSep c = true from fun h => by rw [husep c hc] at h; cases h))]
    rw [List.takeWhile_cons]
    rw [if_neg (by decide)]
    rw [List.append_nil]
    exact hfour
  · intro text hlen hall
    have hall' := hall
    rw [hasAllFour, Bool.and_eq_true, Bool.and_eq_true, Bool.and_eq_true] at hall'
    obtain ⟨⟨⟨_, _⟩, h3⟩, h4⟩ := hall'
    unfold repairCsv
    rw [if_pos (by
      unfold fastHeaderOk
      dsimp only
      rw [h3, h4]
      rw [Bool.and_true, Bool.and_true]
      exact bne_iff_ne.mpr hlen)]

/-- **C7 witness.** A concrete purchase-history header with the split
`rati\nng` is repaired to a first line containing all four marker
fragments; a concrete intact input with a newline is returned unchanged. -/
theorem c7_witness :
    hasAllFour (firstLine (repairCsv (s2l "user_id,image_id," ++
      (patRati ++ (s2l ",occasion" ++ '\n' :: s2l "1,2"))))) = true ∧
    repairCsv (s2l "user_id,image_id,rating,occasion\nrow1") =
      s2l "user_id,image_id,rating,occasion\nrow1" :=
  ⟨c7_amended_header_repair.1 (s2l "user_id,image_id,") (s2l ",occasion") (s2l "1,2")
      (by decide) (by decide) (by decide) (by decide) (by decide),
   c7_amended_header_repair.2 (s2l "user_id,image_id,rating,occasion\nrow1")
      (by decide) (by decide)⟩

end PrismStyle
